import Mathlib

/-!
Verification of the cutting-plane bounding node of a branch-and-bound MILP
solver (`simple_mip_solver/nodes/bound/cutting_plane.py` and the behaviour of
its base class as exercised by `test_simple_mip_solver/test_nodes/test_base_node.py`).

The linear-programming oracle (CLP via CyLP) and the nested `BranchAndBound`
driver are external collaborators of the code under study; they are modelled
as abstract function parameters (`Oracle`, `BBOracle`).  All numeric data is
embedded as rational numbers; vectors and matrices are lists of rationals.
-/

namespace SimpleMipSolver

/-- Extended values for a node's lower bound: the Python code uses
`-float('inf')` before bounding and `float('inf')` for infeasible nodes. -/
inductive LB where
  | negInf : LB
  | fin : ℚ → LB
  | posInf : LB
deriving DecidableEq, Repr

/-- Strict comparison on extended bounds, mirroring Python float comparison
with infinities. -/
def LB.lt : LB → LB → Bool
  | .negInf, .negInf => false
  | .negInf, _ => true
  | .fin _, .negInf => false
  | .fin p, .fin q => p < q
  | .fin _, .posInf => true
  | .posInf, _ => false

/-- The linear relaxation owned by a node: constraint rows `A`, right-hand
sides `b` (the model's sense is `A x ≥ b` throughout, asserted at node
construction), and the number of structural variables.  Matches the parts of
the CyLP model (`self._lp`) that `cutting_plane.py` reads and writes:
`coefMatrix`, `constraintsLower`, `nVariables`. -/
structure LP where
  A : List (List ℚ)
  b : List ℚ
  nVars : Nat
deriving DecidableEq, Repr

/-- Result of one LP solve, as read back from the external relaxation oracle:
feasibility, objective, primal solution, and the tableau data
(`basicVariables`, `tableau`) that Gomory cut generation consumes.  Tableau
rows carry `nVars` structural columns followed by one slack column per
constraint row. -/
structure LPResult where
  feasible : Bool
  objective : ℚ
  solution : List ℚ
  basicVariables : List Nat
  tableau : List (List ℚ)
deriving DecidableEq, Repr

/-- The external LP relaxation solver (simplex), out of scope of the core. -/
def Oracle := LP → LPResult

/-- State of a `CuttingPlaneBoundNode`: its relaxation, the declared integer
indices, and the derived state populated by bounding.  `solveCount` records
how many times the relaxation oracle has been invoked on this node's
relaxation, so that effects of bounding (one solve vs. a re-solve after cuts)
are visible in the embedding. -/
structure NodeState where
  lp : LP
  integerIndices : List Nat
  lowerBound : LB
  objectiveValue : Option ℚ
  solution : List ℚ
  lpFeasible : Bool
  mipFeasible : Bool
  basicVariables : List Nat
  tableau : List (List ℚ)
  solveCount : Nat
deriving DecidableEq, Repr

/-- Modelled from the spec: the fractionality tolerance of `BaseNode`
(`self._epsilon`); the tests pin the boundary at `1e-6`
(`_is_fractional(5.000001)` is false). -/
def epsilon : ℚ := 1 / 1000000

/-- Modelled from the spec: `BaseNode._is_fractional` — a value is fractional
when its distance to the nearest integer exceeds `epsilon`. -/
def isFractional (v : ℚ) : Bool := epsilon < min (v - ⌊v⌋) (⌈v⌉ - v)

/-- Modelled from the spec: `BaseNode._get_fraction`, the fractional part of
a value. -/
def getFraction (v : ℚ) : ℚ := v - ⌊v⌋

/-- Modelled from the spec: `BaseNode._base_bound` — solve the relaxation via
the oracle; on feasibility record the solution, objective, lower bound and
tableau data and set `mip_feasible` to whether every integer-declared
variable's value is integral within tolerance; on infeasibility set the lower
bound to `+∞`.  Each call invokes the oracle exactly once. -/
def baseBound (oracle : Oracle) (st : NodeState) : NodeState :=
  let res := oracle st.lp
  if res.feasible then
    { st with
      lpFeasible := true
      mipFeasible := st.integerIndices.all fun i => !isFractional (res.solution.getD i 0)
      solution := res.solution
      objectiveValue := some res.objective
      lowerBound := .fin res.objective
      basicVariables := res.basicVariables
      tableau := res.tableau
      solveCount := st.solveCount + 1 }
  else
    { st with
      lpFeasible := false
      mipFeasible := false
      lowerBound := .posInf
      solveCount := st.solveCount + 1 }

/-- Modelled from the spec: `BaseNode.bound` calls `_base_bound` and returns
an empty dictionary (`test_bound` checks the returned dict is empty).  The
dictionary is embedded as an association list. -/
def baseBoundMethod (oracle : Oracle) (st : NodeState) : List (String × ℚ) × NodeState :=
  ([], baseBound oracle st)

/-- A problem instance handed to the nested branch-and-bound search:
`MILPInstance(A=A, b=b, c=pi, sense=['Min', '>='], integerIndices=...,
numVars=...)` in `_optimize_cut`. -/
structure MILP where
  A : List (List ℚ)
  b : List ℚ
  c : List ℚ
  integerIndices : List Nat
  numVars : Nat
deriving DecidableEq, Repr

/-- Termination status of a branch-and-bound run. -/
inductive BBStatus where
  | optimal : BBStatus
  | infeasible : BBStatus
  | unbounded : BBStatus
  | nodeLimitReached : BBStatus
deriving DecidableEq, Repr

/-- Result of a nested branch-and-bound run: its status, the objective value
of the best solution found, and its proven global lower bound. -/
structure BBResult where
  status : BBStatus
  objectiveValue : ℚ
  globalLowerBound : ℚ
deriving DecidableEq, Repr

/-- The nested branch-and-bound engine (the repository's `BranchAndBound`
class, not part of the sources under study), abstracted as a function from a
problem instance and a node limit to a result. -/
def BBOracle := MILP → Nat → BBResult

/-- Modelled from the spec: the default of `_optimize_cut`'s
`cut_optimization_node_limit` keyword argument. -/
def cutOptimizationNodeLimitDefault : Nat := 10

/-- The `MILPInstance` built by `_optimize_cut`: minimize `pi · x` over the
node's constraint matrix and right-hand side with the node's integrality
declarations.  The matrix is densified and the right-hand side copied; in the
embedding both copies are the corresponding values of the calling node. -/
def optimizeCutModel (st : NodeState) (pi : List ℚ) : MILP :=
  { A := st.lp.A
    b := st.lp.b
    c := pi
    integerIndices := st.integerIndices
    numVars := pi.length }

/-- Running the nested search on a model: return the objective value when the
search finished with status `optimal`, otherwise its global lower bound
(source lines 118–121 of `cutting_plane.py`). -/
def optimizeCutOnModel (bb : BBOracle) (model : MILP) (limit : Nat) : ℚ :=
  let r := bb model limit
  if r.status = .optimal then r.objectiveValue else r.globalLowerBound

/-- `CuttingPlaneBoundNode._optimize_cut`: build the nested model from the
node's data and run a fresh branch-and-bound search on it with the given node
limit. -/
def optimizeCut (bb : BBOracle) (st : NodeState) (pi : List ℚ) (limit : Nat) : ℚ :=
  optimizeCutOnModel bb (optimizeCutModel st pi) limit

/-- Stateful reading of `_optimize_cut`: the method only constructs local
objects (`A`, `model`, `bb`) and never assigns to `self`, so its embedding
returns the node state unchanged alongside the optimized bound. -/
def optimizeCutMethod (bb : BBOracle) (st : NodeState) (pi : List ℚ) (limit : Nat) :
    ℚ × NodeState :=
  (optimizeCut bb st pi limit, st)

/-- Calling `_optimize_cut` without an explicit node limit uses the default
of `cut_optimization_node_limit`. -/
def optimizeCutDefault (bb : BBOracle) (st : NodeState) (pi : List ℚ) : ℚ :=
  optimizeCut bb st pi cutOptimizationNodeLimitDefault

/-- Entry `(r, i)` of the tableau stored on the node after its last solve. -/
def tableauEntry (st : NodeState) (r i : Nat) : ℚ := (st.tableau.getD r []).getD i 0

/-- The `f` dictionary of `_find_gomory_cuts`: fractional part of the tableau
entry, forced to `0` for basic variables. -/
def cutF (st : NodeState) (rowIdx i : Nat) : ℚ :=
  if i ∈ st.basicVariables then 0 else getFraction (tableauEntry st rowIdx i)

/-- The `a` dictionary of `_find_gomory_cuts`: the raw tableau entry, forced
to `0` for basic variables. -/
def cutA (st : NodeState) (rowIdx i : Nat) : ℚ :=
  if i ∈ st.basicVariables then 0 else tableauEntry st rowIdx i

/-- The conditional expression building the structural cut coefficients in
`_find_gomory_cuts` (source lines 81–85), with Python's evaluation order:
`f j / f0` when `f j ≤ f0` and `j` is integer-declared; else
`(1 - f j) / (1 - f0)` when `j` is integer-declared; else `a j / f0` when
`a j > 0`; else `-a j / (1 - f0)`. -/
def cutCoef (intIdx : List Nat) (f a : Nat → ℚ) (f0 : ℚ) (j : Nat) : ℚ :=
  if f j ≤ f0 ∧ j ∈ intIdx then f j / f0
  else if j ∈ intIdx then (1 - f j) / (1 - f0)
  else if 0 < a j then a j / f0
  else -a j / (1 - f0)

/-- The same coefficient rule as the specification states it, split first on
integrality of `j`. -/
def cutCoefSpec (intIdx : List Nat) (f a : Nat → ℚ) (f0 : ℚ) (j : Nat) : ℚ :=
  if j ∈ intIdx then (if f j ≤ f0 then f j / f0 else (1 - f j) / (1 - f0))
  else (if 0 < a j then a j / f0 else -a j / (1 - f0))

/-- Slack-column coefficient rule of `_find_gomory_cuts` (source lines
87–88): `x / f0` when `x > 0`, else `-x / (1 - f0)`. -/
def slackCoef (f0 x : ℚ) : ℚ := if 0 < x then x / f0 else -x / (1 - f0)

/-- Fractional part `f0` of the row's basic variable value. -/
def gmiF0 (st : NodeState) (rowIdx : Nat) : ℚ :=
  getFraction (st.solution.getD (st.basicVariables.getD rowIdx 0) 0)

/-- Structural-variable coefficients `pi` of the Gomory cut for one row,
before slack elimination: one coefficient per structural variable index. -/
def gmiPi (st : NodeState) (rowIdx : Nat) : List ℚ :=
  (List.range st.lp.nVars).map
    (cutCoef st.integerIndices (cutF st rowIdx) (cutA st rowIdx) (gmiF0 st rowIdx))

/-- Number of slack columns in the stored tableau row. -/
def slackCount (st : NodeState) (rowIdx : Nat) : Nat :=
  (st.tableau.getD rowIdx []).length - st.lp.nVars

/-- Slack-variable coefficients `pi_slacks` of the Gomory cut for one row,
from the tableau columns past the structural ones. -/
def gmiPiSlacks (st : NodeState) (rowIdx : Nat) : List ℚ :=
  (List.range (slackCount st rowIdx)).map fun r =>
    slackCoef (gmiF0 st rowIdx) (tableauEntry st rowIdx (st.lp.nVars + r))

/-- Dot product of two rational vectors. -/
def dot (xs ys : List ℚ) : ℚ := (List.zipWith (fun x y => x * y) xs ys).sum

/-- The product `Aᵀ · v` restricted to the first `n` columns of `A`:
entry `j` is the dot product of column `j` of `A` with `v`. -/
def transposeMulVec (A : List (List ℚ)) (v : List ℚ) (n : Nat) : List ℚ :=
  (List.range n).map fun j => dot (A.map fun row => row.getD j 0) v

/-- The finished Gomory cut `(pi, pi0)` for one tableau row (source lines
73–95): structural coefficients folded with `Aᵀ · pi_slacks`, right-hand side
`1 + pi_slacks · b`. -/
def mkCut (st : NodeState) (rowIdx : Nat) : List ℚ × ℚ :=
  (List.zipWith (fun x y => x + y) (gmiPi st rowIdx)
      (transposeMulVec st.lp.A (gmiPiSlacks st rowIdx) st.lp.nVars),
   1 + dot (gmiPiSlacks st rowIdx) st.lp.b)

/-- `CuttingPlaneBoundNode._find_gomory_cuts`: one cut per constraint row
whose basic variable is integer-declared and fractional in the node's
solution (`_row_indices` is the constraint-row index range). -/
def findGomoryCuts (st : NodeState) : List (List ℚ × ℚ) :=
  (List.range st.lp.A.length).filterMap fun rowIdx =>
    if st.basicVariables.getD rowIdx 0 ∈ st.integerIndices ∧
        isFractional (st.solution.getD (st.basicVariables.getD rowIdx 0) 0)
    then some (mkCut st rowIdx) else none

/-- Appending the constraint `pi · x ≥ pi0` to the node's relaxation
(`self._lp.addConstraint(cut)`): one new row of `A` and one new entry of
`b`. -/
def addConstraint (st : NodeState) (pi : List ℚ) (pi0 : ℚ) : NodeState :=
  { st with lp := { st.lp with A := st.lp.A ++ [pi], b := st.lp.b ++ [pi0] } }

/-- Loop body of `_add_optimized_gomory_cuts`: strengthen the right-hand side
to `max(_optimize_cut(pi), pi0)` and add the cut to the model. -/
def addCutStep (bb : BBOracle) (limit : Nat) (st : NodeState) (cut : List ℚ × ℚ) :
    NodeState :=
  addConstraint st cut.1 (max (optimizeCut bb st cut.1 limit) cut.2)

/-- `CuttingPlaneBoundNode._add_optimized_gomory_cuts`: the cuts are computed
once from the solved tableau, then each is strengthened and added in turn
(later cuts see the model with earlier cuts already added, as in the Python
loop over `self._find_gomory_cuts()`). -/
def addOptimizedGomoryCuts (bb : BBOracle) (limit : Nat) (st : NodeState) : NodeState :=
  (findGomoryCuts st).foldl (addCutStep bb limit) st

/-- `CuttingPlaneBoundNode.bound`: call the base bound, then, when the
relaxation is LP-feasible but not MIP-feasible and optimized Gomory cuts are
enabled, add the optimized cuts; return the base method's dictionary. -/
def bound (oracle : Oracle) (bb : BBOracle) (optimizedGomoryCuts : Bool) (limit : Nat)
    (st : NodeState) : List (String × ℚ) × NodeState :=
  let rtn := (baseBoundMethod oracle st).1
  let st1 := (baseBoundMethod oracle st).2
  let st2 :=
    if st1.lpFeasible && !st1.mipFeasible then
      if optimizedGomoryCuts then addOptimizedGomoryCuts bb limit st1 else st1
    else st1
  (rtn, st2)

/-! ### Node construction contract -/

/-- Python values that can be passed as the `lower_bound` constructor
argument: a numeric value (rationals, or an infinity) or a non-numeric
value such as a string (the tests pass `'five'`). -/
inductive PyVal where
  | num : ℚ → PyVal
  | negInf : PyVal
  | posInf : PyVal
  | str : String → PyVal
deriving DecidableEq, Repr

/-- Whether a Python value is numeric (`float` or `int`). -/
def PyVal.isNumeric : PyVal → Bool
  | .str _ => false
  | _ => true

/-- Modelled from the spec: the constructor arguments of a node that the
`BaseNode.__init__` assertions inspect, together with the relaxation data the
`CuttingPlaneBoundNode.__init__` assertions inspect (constraint sense and
variable lower bounds). -/
structure InitArgs where
  varCount : Nat
  integerIndices : List Nat
  lowerBound : PyVal
  bIdx : Option Nat
  bDir : Option String
  bVal : Option ℚ
  depth : ℚ
  sense : String
  varLower : List ℚ
  varUpper : List ℚ
deriving DecidableEq, Repr

/-- Modelled from the spec: the branch-triple assertions of
`BaseNode.__init__` — the triple `(b_idx, b_dir, b_val)` is all-none or
all-set; when set, the index is integer-declared, the direction is `up` or
`down`, and the value lies within one unit of both of the variable's
bounds. -/
def branchTupleOk (args : InitArgs) : Bool :=
  match args.bIdx, args.bDir, args.bVal with
  | none, none, none => true
  | some i, some d, some v =>
      decide (i ∈ args.integerIndices) &&
      (d == "up" || d == "down") &&
      decide (|v - args.varLower.getD i 0| ≤ 1) &&
      decide (|v - args.varUpper.getD i 0| ≤ 1)
  | _, _, _ => false

/-- Modelled from the spec: the assertions of `BaseNode.__init__`
(`test_init_fails_asserts`): integer indices within the variable set and
distinct, a numeric lower bound, a well-formed branch triple, and a
non-negative integer depth.  Construction fails with an `AssertionError`
exactly when this checker returns `false`. -/
def baseInitOk (args : InitArgs) : Bool :=
  args.integerIndices.all (fun i => decide (i < args.varCount)) &&
  decide args.integerIndices.Nodup &&
  args.lowerBound.isNumeric &&
  branchTupleOk args &&
  decide (args.depth.den = 1) &&
  decide (0 ≤ args.depth)

/-- The `CuttingPlaneBoundNode.__init__` assertions on top of the base ones
(source lines 18–21): the constraint sense must be `A x ≥ b` and every
variable's lower bound must be non-negative. -/
def cuttingPlaneInitOk (args : InitArgs) : Bool :=
  baseInitOk args &&
  (args.sense == ">=") &&
  args.varLower.all (fun l => decide (0 ≤ l))

/-! ### Node ordering -/

/-- Modelled from the spec: `BaseNode.__lt__` compares nodes by their lower
bounds. -/
def nodeLt (a b : NodeState) : Bool := LB.lt a.lowerBound b.lowerBound

/-- Modelled from the spec: `BaseNode.__eq__` — two nodes are equal when
their lower bounds are equal. -/
def nodeEq (a b : NodeState) : Bool := a.lowerBound = b.lowerBound

/-- Operand of a Python comparison: another node, or any non-node value. -/
inductive PyOperand where
  | node : NodeState → PyOperand
  | nonNode : PyOperand

/-- The exception kind raised on comparing a node with a non-node. -/
def typeError : String := "TypeError"

/-- Modelled from the spec: `BaseNode.__lt__` raises `TypeError` when the
other operand is not a node. -/
def nodeLtPy (a : NodeState) : PyOperand → Except String Bool
  | .node b => .ok (nodeLt a b)
  | .nonNode => .error typeError

/-- Modelled from the spec: `BaseNode.__eq__` raises `TypeError` when the
other operand is not a node. -/
def nodeEqPy (a : NodeState) : PyOperand → Except String Bool
  | .node b => .ok (nodeEq a b)
  | .nonNode => .error typeError

/-- Modelled from the spec: a priority queue pop returns a minimal node
under the node ordering (the first such node in insertion order). -/
def pqPop : List NodeState → Option NodeState
  | [] => none
  | n :: rest => some (rest.foldl (fun best m => if nodeLt m best then m else best) n)

/-- A node state carrying only a lower bound, with an empty relaxation; used
to exercise the ordering. -/
def nodeWith (l : LB) : NodeState :=
  { lp := { A := [], b := [], nVars := 0 }
    integerIndices := []
    lowerBound := l
    objectiveValue := none
    solution := []
    lpFeasible := false
    mipFeasible := false
    basicVariables := []
    tableau := []
    solveCount := 0 }

/-! ### Concrete instances used by counterexamples and witnesses -/

/-- An oracle for a one-variable, one-constraint relaxation whose optimum
puts the integer variable at the fractional value `1/2`; basic variable of
row 0 is variable 0, and the tableau has one structural and one slack
column. -/
def cexOracle : Oracle := fun _ =>
  { feasible := true
    objective := 1/2
    solution := [1/2]
    basicVariables := [0]
    tableau := [[1, -1]] }

/-- A nested-search oracle that reports an optimal value of `0`. -/
def cexBB : BBOracle := fun _ _ =>
  { status := .optimal, objectiveValue := 0, globalLowerBound := 0 }

/-- An unbounded root node for the relaxation `x ≥ 1/2`, `x ≥ 0`, `x`
integer. -/
def cexSt : NodeState :=
  { lp := { A := [[1]], b := [1/2], nVars := 1 }
    integerIndices := [0]
    lowerBound := .negInf
    objectiveValue := none
    solution := []
    lpFeasible := false
    mipFeasible := false
    basicVariables := []
    tableau := []
    solveCount := 0 }

/-- An oracle reporting infeasibility of every relaxation. -/
def infOracle : Oracle := fun _ =>
  { feasible := false
    objective := 0
    solution := []
    basicVariables := []
    tableau := [] }

/-! ### Helper lemmas -/

/-- The base bound never touches the relaxation itself. -/
lemma baseBound_lp (oracle : Oracle) (st : NodeState) :
    (baseBound oracle st).lp = st.lp := by
  cases h : (oracle st.lp).feasible <;> simp [baseBound, h]

/-- The base bound invokes the oracle exactly once. -/
lemma baseBound_solveCount (oracle : Oracle) (st : NodeState) :
    (baseBound oracle st).solveCount = st.solveCount + 1 := by
  cases h : (oracle st.lp).feasible <;> simp [baseBound, h]

/-- The base bound never changes the integrality declarations. -/
lemma baseBound_integerIndices (oracle : Oracle) (st : NodeState) :
    (baseBound oracle st).integerIndices = st.integerIndices := by
  cases h : (oracle st.lp).feasible <;> simp [baseBound, h]

/-- Adding the optimized cuts appends exactly the found cut vectors as new
constraint rows. -/
lemma foldl_addCutStep_A (bb : BBOracle) (limit : Nat) (cuts : List (List ℚ × ℚ)) :
    ∀ st : NodeState,
      ((cuts.foldl (addCutStep bb limit) st).lp.A) = st.lp.A ++ cuts.map Prod.fst := by
  induction cuts with
  | nil => intro st; simp
  | cons c cs ih =>
      intro st
      rw [List.foldl_cons, ih]
      simp [addCutStep, addConstraint]

/-- Adding the optimized cuts appends one right-hand side per cut. -/
lemma foldl_addCutStep_b_length (bb : BBOracle) (limit : Nat) (cuts : List (List ℚ × ℚ)) :
    ∀ st : NodeState,
      ((cuts.foldl (addCutStep bb limit) st).lp.b).length = st.lp.b.length + cuts.length := by
  induction cuts with
  | nil => intro st; simp
  | cons c cs ih =>
      intro st
      rw [List.foldl_cons, ih]
      simp [addCutStep, addConstraint]
      omega

/-- Adding the optimized cuts never invokes the relaxation oracle. -/
lemma foldl_addCutStep_solveCount (bb : BBOracle) (limit : Nat) (cuts : List (List ℚ × ℚ)) :
    ∀ st : NodeState,
      (cuts.foldl (addCutStep bb limit) st).solveCount = st.solveCount := by
  induction cuts with
  | nil => intro st; rfl
  | cons c cs ih =>
      intro st
      rw [List.foldl_cons, ih]
      rfl

/-- Adding the optimized cuts never changes the stored solution. -/
lemma foldl_addCutStep_solution (bb : BBOracle) (limit : Nat) (cuts : List (List ℚ × ℚ)) :
    ∀ st : NodeState,
      (cuts.foldl (addCutStep bb limit) st).solution = st.solution := by
  induction cuts with
  | nil => intro st; rfl
  | cons c cs ih =>
      intro st
      rw [List.foldl_cons, ih]
      rfl

/-- Filtering with an `if` inside `filterMap` is filtering then mapping. -/
lemma filterMap_ite {β : Type} (l : List Nat) (p : Nat → Prop) [DecidablePred p]
    (g : Nat → β) :
    (l.filterMap fun r => if p r then some (g r) else none) =
      (l.filter fun r => decide (p r)).map g := by
  induction l with
  | nil => rfl
  | cons x xs ih =>
      by_cases h : p x <;> simp [h, ih]

/-- Indexing a map over a range with a default. -/
lemma getD_map_range {β : Type} (f : Nat → β) (n j : Nat) (d : β) :
    (((List.range n).map f).getD j d) = if j < n then f j else d := by
  by_cases h : j < n
  · rw [List.getD_eq_getElem?_getD, List.getElem?_map, List.getElem?_range h]
    simp [h]
  · rw [List.getD_eq_getElem?_getD, List.getElem?_map,
      List.getElem?_eq_none (by simpa using Nat.le_of_not_lt h)]
    simp [h]

/-- The Python conditional chain computing the structural coefficients agrees
with the specification's case split. -/
lemma cutCoef_eq_cutCoefSpec (intIdx : List Nat) (f a : Nat → ℚ) (f0 : ℚ) (j : Nat) :
    cutCoef intIdx f a f0 j = cutCoefSpec intIdx f a f0 j := by
  unfold cutCoef cutCoefSpec
  by_cases hj : j ∈ intIdx <;> by_cases hf : f j ≤ f0 <;> simp [hj, hf]

/-- Evaluation rule for the fractionality test on a value strictly between
two consecutive integers. -/
lemma isFractional_eval (v : ℚ) (n : ℤ) (h1 : (n : ℚ) < v) (h2 : v < n + 1) :
    isFractional v = decide (epsilon < min (v - n) (n + 1 - v)) := by
  have hf : ⌊v⌋ = n := by
    rw [Int.floor_eq_iff]
    exact ⟨le_of_lt h1, by exact_mod_cast h2⟩
  have hc : ⌈v⌉ = n + 1 := by
    rw [Int.ceil_eq_iff]
    constructor
    · push_cast
      simpa using h1
    · push_cast
      exact le_of_lt h2
  have hcast : ((n + 1 : ℤ) : ℚ) = (n : ℚ) + 1 := by push_cast ; rfl
  rw [isFractional, hf, hc, hcast]

/-- The value `1/2` is fractional. -/
lemma isFractional_half : isFractional ((2:ℚ)⁻¹) = true := by
  rw [← one_div]
  rw [isFractional_eval (1/2) 0 (by norm_num) (by norm_num)]
  rw [decide_eq_true_iff, lt_min_iff]
  norm_num [epsilon]

/-- The base bound on the concrete fractional instance is LP-feasible. -/
lemma cex_lpFeasible : (baseBound cexOracle cexSt).lpFeasible = true := by
  simp [baseBound, cexOracle, cexSt]

/-- The base bound on the concrete fractional instance is not MIP-feasible. -/
lemma cex_mipFeasible : (baseBound cexOracle cexSt).mipFeasible = false := by
  simp [baseBound, cexOracle, cexSt, isFractional_half]

/-- The state of the concrete fractional instance after its base bound. -/
lemma cex_baseBound_eq : baseBound cexOracle cexSt =
    { lp := { A := [[1]], b := [1/2], nVars := 1 }
      integerIndices := [0]
      lowerBound := .fin (1/2)
      objectiveValue := some (1/2)
      solution := [1/2]
      lpFeasible := true
      mipFeasible := false
      basicVariables := [0]
      tableau := [[1, -1]]
      solveCount := 1 } := by
  simp [baseBound, cexOracle, cexSt, isFractional_half]

/-- The concrete fractional instance yields exactly one Gomory cut. -/
lemma cex_cuts_length : (findGomoryCuts (baseBound cexOracle cexSt)).length = 1 := by
  rw [cex_baseBound_eq]
  simp [findGomoryCuts, isFractional_half, List.range_succ, List.filterMap_cons]

/-! ### Claim theorems -/

/-- C1 counterexample: on a concrete node whose relaxation is LP-feasible,
not MIP-feasible and yields a Gomory cut, `bound` with optimized Gomory cuts
enabled appends the cut (the constraint count grows from 1 to 2) but invokes
the relaxation oracle only once — the base solve — so, contrary to the claim,
no re-solve of the relaxation happens before returning. -/
theorem bound_does_not_resolve_counterexample :
    (baseBound cexOracle cexSt).lpFeasible = true ∧
    (baseBound cexOracle cexSt).mipFeasible = false ∧
    (findGomoryCuts (baseBound cexOracle cexSt)).length = 1 ∧
    (bound cexOracle cexBB true 10 cexSt).2.lp.A.length = 2 ∧
    cexSt.solveCount = 0 ∧
    (bound cexOracle cexBB true 10 cexSt).2.solveCount = 1 ∧
    ¬(bound cexOracle cexBB true 10 cexSt).2.solveCount = cexSt.solveCount + 2 ∧
    (bound cexOracle cexBB true 10 cexSt).2.solution = (baseBound cexOracle cexSt).solution := by
  have hA : (bound cexOracle cexBB true 10 cexSt).2.lp.A.length = 2 := by
    unfold bound baseBoundMethod
    simp only [cex_lpFeasible, cex_mipFeasible, Bool.not_false, Bool.and_self, if_true]
    rw [addOptimizedGomoryCuts, foldl_addCutStep_A, baseBound_lp]
    rw [List.length_append, List.length_map, cex_cuts_length]
    rfl
  have hS : (bound cexOracle cexBB true 10 cexSt).2.solveCount = 1 := by
    unfold bound baseBoundMethod
    simp only [cex_lpFeasible, cex_mipFeasible, Bool.not_false, Bool.and_self, if_true]
    rw [addOptimizedGomoryCuts, foldl_addCutStep_solveCount, baseBound_solveCount]
    rfl
  have hSol : (bound cexOracle cexBB true 10 cexSt).2.solution =
      (baseBound cexOracle cexSt).solution := by
    unfold bound baseBoundMethod
    simp only [cex_lpFeasible, cex_mipFeasible, Bool.not_false, Bool.and_self, if_true]
    rw [addOptimizedGomoryCuts, foldl_addCutStep_solution]
  refine ⟨cex_lpFeasible, cex_mipFeasible, cex_cuts_length, hA, rfl, hS, ?_, hSol⟩
  rw [hS]
  simp [cexSt]

/-- C1 (amended): whenever the base bound comes back LP-feasible and not
MIP-feasible and optimized Gomory cuts are enabled, `bound` appends the
generated cuts to the node's relaxation but does not re-solve it before
returning: the oracle is invoked exactly once, by the base bound. -/
theorem bound_appends_cuts_without_resolving (oracle : Oracle) (bb : BBOracle)
    (limit : Nat) (st : NodeState)
    (h1 : (baseBound oracle st).lpFeasible = true)
    (h2 : (baseBound oracle st).mipFeasible = false) :
    (bound oracle bb true limit st).2.lp.A =
      st.lp.A ++ (findGomoryCuts (baseBound oracle st)).map Prod.fst ∧
    (bound oracle bb true limit st).2.solveCount = st.solveCount + 1 ∧
    (bound oracle bb true limit st).2.solution = (baseBound oracle st).solution := by
  unfold bound baseBoundMethod
  simp only [h1, h2, Bool.not_false, Bool.and_self, if_true]
  refine ⟨?_, ?_, ?_⟩
  · rw [addOptimizedGomoryCuts, foldl_addCutStep_A, baseBound_lp]
  · rw [addOptimizedGomoryCuts, foldl_addCutStep_solveCount, baseBound_solveCount]
  · rw [addOptimizedGomoryCuts, foldl_addCutStep_solution]

/-- C1 witness: the amended theorem applied to the concrete fractional
instance. -/
theorem bound_appends_cuts_without_resolving_witness :
    ((baseBound cexOracle cexSt).lpFeasible = true ∧
     (baseBound cexOracle cexSt).mipFeasible = false) ∧
    ((bound cexOracle cexBB true 10 cexSt).2.lp.A =
      cexSt.lp.A ++ (findGomoryCuts (baseBound cexOracle cexSt)).map Prod.fst ∧
     (bound cexOracle cexBB true 10 cexSt).2.solveCount = cexSt.solveCount + 1 ∧
     (bound cexOracle cexBB true 10 cexSt).2.solution =
       (baseBound cexOracle cexSt).solution) :=
  ⟨⟨cex_lpFeasible, cex_mipFeasible⟩,
   bound_appends_cuts_without_resolving cexOracle cexBB 10 cexSt
     cex_lpFeasible cex_mipFeasible⟩

/-- C2: the right-hand side actually added for a cut `(pi, pi0)` is
`max(pi0, r)` where `r` is the nested search's objective value when its
status is `optimal` and its global lower bound otherwise, the nested model
minimizing `pi · x` over the node's constraint matrix and right-hand side
with its integrality declarations, with node limit defaulting to 10; hence
the added right-hand side never drops below the derived `pi0`. -/
theorem optimized_cut_rhs_is_max_with_nested_bound (bb : BBOracle) (limit : Nat)
    (st : NodeState) (pi : List ℚ) (pi0 : ℚ) :
    (addCutStep bb limit st (pi, pi0)).lp.A = st.lp.A ++ [pi] ∧
    (addCutStep bb limit st (pi, pi0)).lp.b =
      st.lp.b ++ [max (optimizeCut bb st pi limit) pi0] ∧
    pi0 ≤ max (optimizeCut bb st pi limit) pi0 ∧
    optimizeCut bb st pi limit =
      (if (bb (optimizeCutModel st pi) limit).status = .optimal
       then (bb (optimizeCutModel st pi) limit).objectiveValue
       else (bb (optimizeCutModel st pi) limit).globalLowerBound) ∧
    (optimizeCutModel st pi).A = st.lp.A ∧
    (optimizeCutModel st pi).b = st.lp.b ∧
    (optimizeCutModel st pi).c = pi ∧
    (optimizeCutModel st pi).integerIndices = st.integerIndices ∧
    cutOptimizationNodeLimitDefault = 10 ∧
    optimizeCutDefault bb st pi = optimizeCut bb st pi 10 ∧
    addOptimizedGomoryCuts bb limit st = (findGomoryCuts st).foldl (addCutStep bb limit) st :=
  ⟨rfl, rfl, le_max_right _ _, rfl, rfl, rfl, rfl, rfl, rfl, rfl, rfl⟩

/-- C3: the structural coefficient of variable `j` in a Gomory cut row is
`f j / f0` for an integer-declared `j` with `f j ≤ f0`,
`(1 - f j)/(1 - f0)` for an integer-declared `j` with `f j > f0`,
`a j / f0` for a continuous `j` with `a j > 0`, and `-a j / (1 - f0)`
otherwise, where `f0` is the fractional part of the row's basic variable
value and both `a` and `f` are `0` at every basic variable. -/
theorem gomory_structural_coefficients_match_spec (st : NodeState) (rowIdx j : Nat) :
    (gmiPi st rowIdx).getD j 0 =
      (if j < st.lp.nVars
       then cutCoefSpec st.integerIndices (cutF st rowIdx) (cutA st rowIdx) (gmiF0 st rowIdx) j
       else 0) ∧
    (∀ intIdx f a f0,
      cutCoefSpec intIdx f a f0 j =
        (if j ∈ intIdx then (if f j ≤ f0 then f j / f0 else (1 - f j) / (1 - f0))
         else (if 0 < a j then a j / f0 else -a j / (1 - f0)))) ∧
    cutF st rowIdx j =
      (if j ∈ st.basicVariables then 0 else getFraction (tableauEntry st rowIdx j)) ∧
    cutA st rowIdx j =
      (if j ∈ st.basicVariables then 0 else tableauEntry st rowIdx j) ∧
    gmiF0 st rowIdx =
      getFraction (st.solution.getD (st.basicVariables.getD rowIdx 0) 0) := by
  refine ⟨?_, fun intIdx f a f0 => rfl, rfl, rfl, rfl⟩
  rw [gmiPi, getD_map_range]
  split <;> simp [cutCoef_eq_cutCoefSpec]

/-- C4: the slack coefficient for tableau slack entry `x` is `x / f0` when
`x > 0` and `-x / (1 - f0)` otherwise, and slacks are eliminated by adding
`Aᵀ · pi_slacks` to the structural coefficients and setting the right-hand
side to `1 + pi_slacks · b`. -/
theorem gomory_slack_coefficients_and_elimination (st : NodeState) (rowIdx r : Nat) :
    (gmiPiSlacks st rowIdx).getD r 0 =
      (if r < slackCount st rowIdx
       then slackCoef (gmiF0 st rowIdx) (tableauEntry st rowIdx (st.lp.nVars + r))
       else 0) ∧
    (∀ f0 x : ℚ, slackCoef f0 x = (if 0 < x then x / f0 else -x / (1 - f0))) ∧
    (mkCut st rowIdx).1 =
      List.zipWith (fun x y => x + y) (gmiPi st rowIdx)
        (transposeMulVec st.lp.A (gmiPiSlacks st rowIdx) st.lp.nVars) ∧
    (mkCut st rowIdx).2 = 1 + dot (gmiPiSlacks st rowIdx) st.lp.b ∧
    (∀ j, (transposeMulVec st.lp.A (gmiPiSlacks st rowIdx) st.lp.nVars).getD j 0 =
      (if j < st.lp.nVars
       then dot (st.lp.A.map fun row => row.getD j 0) (gmiPiSlacks st rowIdx)
       else 0)) := by
  refine ⟨?_, fun f0 x => rfl, rfl, rfl, fun j => ?_⟩
  · rw [gmiPiSlacks, getD_map_range]
  · rw [transposeMulVec, getD_map_range]

/-- C5: one Gomory cut is generated exactly for each tableau row whose basic
variable is integer-declared and fractional in the node's solution, and
every cut is appended as a new constraint row (one row of `A` and one
right-hand side entry) to the node's relaxation. -/
theorem gomory_cut_per_fractional_integer_basic_row (bb : BBOracle) (limit : Nat)
    (st : NodeState) :
    findGomoryCuts st =
      ((List.range st.lp.A.length).filter fun rowIdx =>
        decide (st.basicVariables.getD rowIdx 0 ∈ st.integerIndices ∧
          isFractional (st.solution.getD (st.basicVariables.getD rowIdx 0) 0) = true)).map
        (mkCut st) ∧
    (addOptimizedGomoryCuts bb limit st).lp.A =
      st.lp.A ++ (findGomoryCuts st).map Prod.fst ∧
    (addOptimizedGomoryCuts bb limit st).lp.b.length =
      st.lp.b.length + (findGomoryCuts st).length := by
  refine ⟨?_, ?_, ?_⟩
  · rw [findGomoryCuts, filterMap_ite]
  · rw [addOptimizedGomoryCuts, foldl_addCutStep_A]
  · rw [addOptimizedGomoryCuts, foldl_addCutStep_b_length]

/-- C6: node construction succeeds exactly when none of the malformations is
present: every integer index inside the variable set, indices distinct, a
numeric lower bound, an all-or-none branch triple whose index is
integer-declared, whose direction is `up` or `down` and whose value is within
one unit of the variable's bounds, a non-negative integer depth, the `≥`
constraint sense, and non-negative variable lower bounds; each malformed
input therefore fails the construction-time assertions. -/
theorem node_construction_rejects_malformed_input (args : InitArgs) :
    cuttingPlaneInitOk args = true ↔
      ((∀ i ∈ args.integerIndices, i < args.varCount) ∧
       args.integerIndices.Nodup ∧
       args.lowerBound.isNumeric = true ∧
       ((args.bIdx = none ∧ args.bDir = none ∧ args.bVal = none) ∨
        (∃ i d v, args.bIdx = some i ∧ args.bDir = some d ∧ args.bVal = some v ∧
          i ∈ args.integerIndices ∧ (d = "up" ∨ d = "down") ∧
          |v - args.varLower.getD i 0| ≤ 1 ∧ |v - args.varUpper.getD i 0| ≤ 1)) ∧
       args.depth.den = 1 ∧ 0 ≤ args.depth ∧
       args.sense = ">=" ∧ (∀ l ∈ args.varLower, 0 ≤ l)) := by
  rcases h1 : args.bIdx with _ | i <;> rcases h2 : args.bDir with _ | d <;>
    rcases h3 : args.bVal with _ | v <;>
    simp [cuttingPlaneInitOk, baseInitOk, branchTupleOk, h1, h2, h3,
      List.all_eq_true, Bool.and_eq_true, Bool.or_eq_true, decide_eq_true_iff,
      beq_iff_eq] <;> tauto

/-- C7: the fractionality test holds exactly when the distance to the nearest
integer exceeds the tolerance, and takes the documented values at 5, 5.5,
5.999999 and 5.000001. -/
theorem is_fractional_iff_and_boundary_values :
    (∀ v : ℚ, isFractional v = true ↔ epsilon < min (v - ⌊v⌋) (⌈v⌉ - v)) ∧
    isFractional 5 = false ∧
    isFractional (11/2) = true ∧
    isFractional (5999999/1000000) = false ∧
    isFractional (5000001/1000000) = false := by
  refine ⟨fun v => by rw [isFractional, decide_eq_true_iff], ?_, ?_, ?_, ?_⟩
  · have hf : ⌊(5:ℚ)⌋ = 5 := by norm_num
    have hc : ⌈(5:ℚ)⌉ = 5 := by norm_num
    simp [isFractional, hf, hc, epsilon]
  · rw [isFractional_eval (11/2) 5 (by norm_num) (by norm_num)]
    rw [decide_eq_true_iff, lt_min_iff]
    norm_num [epsilon]
  · rw [isFractional_eval (5999999/1000000) 5 (by norm_num) (by norm_num)]
    simp only [decide_eq_false_iff_not, lt_min_iff, not_and_or, not_lt]
    right
    norm_num [epsilon]
  · rw [isFractional_eval (5000001/1000000) 5 (by norm_num) (by norm_num)]
    simp only [decide_eq_false_iff_not, lt_min_iff, not_and_or, not_lt]
    left
    norm_num [epsilon]

/-- C8: node comparison is by lower bound (strictly for `<`, equality of
bounds for `==`), comparison against a non-node raises `TypeError`, and in a
priority queue a node with lower bound `−∞` is popped before a node with
lower bound `0`. -/
theorem node_ordering_by_lower_bound :
    (∀ a b : NodeState, nodeLt a b = LB.lt a.lowerBound b.lowerBound) ∧
    (∀ p q : ℚ, LB.lt (.fin p) (.fin q) = decide (p < q)) ∧
    (∀ q : ℚ, LB.lt .negInf (.fin q) = true) ∧
    (∀ a b : NodeState, nodeEq a b = true ↔ a.lowerBound = b.lowerBound) ∧
    (∀ a b : NodeState, nodeLtPy a (.node b) = .ok (nodeLt a b)) ∧
    (∀ a : NodeState, nodeLtPy a .nonNode = .error typeError) ∧
    (∀ a : NodeState, nodeEqPy a .nonNode = .error typeError) ∧
    pqPop [nodeWith (.fin 0), nodeWith .negInf] = some (nodeWith .negInf) := by
  refine ⟨fun a b => rfl, fun p q => rfl, fun q => rfl, ?_, fun a b => rfl,
    fun a => rfl, fun a => rfl, rfl⟩
  intro a b
  rw [nodeEq, decide_eq_true_iff]

/-- C9: `_optimize_cut` runs the nested search on a model built only from
copies of the node's data (constraint matrix, right-hand side, objective
`pi` and the integrality declarations), its result depends on the node only
through that model, and the call leaves the node's state — relaxation,
solution and bounds — unchanged. -/
theorem optimize_cut_independent_and_frame (bb : BBOracle) (st : NodeState)
    (pi : List ℚ) (limit : Nat) :
    (optimizeCutMethod bb st pi limit).2 = st ∧
    (optimizeCutMethod bb st pi limit).2.lp = st.lp ∧
    (optimizeCutMethod bb st pi limit).2.solution = st.solution ∧
    (optimizeCutMethod bb st pi limit).2.lowerBound = st.lowerBound ∧
    (optimizeCutMethod bb st pi limit).2.objectiveValue = st.objectiveValue ∧
    optimizeCutModel st pi =
      { A := st.lp.A
        b := st.lp.b
        c := pi
        integerIndices := st.integerIndices
        numVars := pi.length } ∧
    (optimizeCutMethod bb st pi limit).1 =
      optimizeCutOnModel bb (optimizeCutModel st pi) limit ∧
    optimizeCut bb st pi limit = optimizeCutOnModel bb (optimizeCutModel st pi) limit :=
  ⟨rfl, rfl, rfl, rfl, rfl, rfl, rfl, rfl⟩

/-- C10: `bound` always returns exactly the base method's (empty) dictionary,
and the relaxation gains constraint rows only when the base bound is
LP-feasible, not MIP-feasible and optimized Gomory cuts are enabled;
otherwise the constraint matrix and right-hand side are unchanged. -/
theorem bound_frame_and_return_value (oracle : Oracle) (bb : BBOracle)
    (gomory : Bool) (limit : Nat) (st : NodeState) :
    (bound oracle bb gomory limit st).1 = (baseBoundMethod oracle st).1 ∧
    (bound oracle bb gomory limit st).1 = [] ∧
    (bound oracle bb gomory limit st).2.lp.A =
      (if (baseBound oracle st).lpFeasible = true ∧
          (baseBound oracle st).mipFeasible = false ∧ gomory = true
       then st.lp.A ++ (findGomoryCuts (baseBound oracle st)).map Prod.fst
       else st.lp.A) ∧
    (bound oracle bb gomory limit st).2.lp.b.length =
      (if (baseBound oracle st).lpFeasible = true ∧
          (baseBound oracle st).mipFeasible = false ∧ gomory = true
       then st.lp.b.length + (findGomoryCuts (baseBound oracle st)).length
       else st.lp.b.length) := by
  refine ⟨rfl, rfl, ?_, ?_⟩ <;>
  · unfold bound baseBoundMethod
    rcases hf : (baseBound oracle st).lpFeasible <;>
      rcases hm : (baseBound oracle st).mipFeasible <;>
      rcases hg : gomory <;>
      simp [hf, hm, addOptimizedGomoryCuts, foldl_addCutStep_A,
        foldl_addCutStep_b_length, baseBound_lp]

end SimpleMipSolver
